import Mathlib

/- Verification of the overtime-calculation core of `src/main.py`.

   Shallow embedding conventions:
   * Python integers are `Int` (minute arithmetic never overflows here),
   * Python `None` is `Option.none`,
   * a raised exception is `Except.error` carrying the exception message,
   * Python floats are modelled as exact rationals; `round(x, 2)` is
     round-half-to-even on the exact rational value,
   * a raw cell value is `Option String` (the program applies `str` to any
     non-`None` cell before using it, so a string input is fully general). -/

/-- Whitespace characters removed by Python `str.strip()` and used as the
separators of `str.split()` (the ASCII ones; the cell values under study
contain no exotic Unicode spaces). -/
def pySpace (c : Char) : Bool :=
  c = ' ' || c = '\t' || c = '\n' || c = '\r' || c = Char.ofNat 11 || c = Char.ofNat 12

/-- Python `str.strip()` on a character list. -/
def pyStrip (l : List Char) : List Char :=
  ((l.dropWhile pySpace).reverse.dropWhile pySpace).reverse

/-- Python `str.strip()` on a string. -/
def pyStripStr (s : String) : String := String.mk (pyStrip s.data)

/-- Split a list at the first occurrence of the character `c`:
`some (before, after)` when `c` occurs (Python `split(c, 1)`), `none` when it
does not (Python `c not in s`). -/
def splitFirst (c : Char) : List Char → Option (List Char × List Char)
  | [] => none
  | x :: xs =>
    if x = c then some ([], xs)
    else (splitFirst c xs).map (fun p => (x :: p.1, p.2))

/-- Continuation of `pyDigits`: consume further digits, allowing a single
underscore between two digits as Python `int` does. -/
def pyDigitsGo : Nat → List Char → Option Nat
  | acc, [] => some acc
  | acc, c :: rest =>
    if c.isDigit then pyDigitsGo (acc * 10 + (c.toNat - 48)) rest
    else if c = '_' then
      match rest with
      | [] => none
      | d :: rest2 =>
        if d.isDigit then pyDigitsGo (acc * 10 + (d.toNat - 48)) rest2 else none
    else none

/-- An unsigned digit run as accepted by Python `int` (at least one digit,
single underscores only between digits). -/
def pyDigits : List Char → Option Nat
  | [] => none
  | c :: rest => if c.isDigit then pyDigitsGo (c.toNat - 48) rest else none

/-- Python `int(s)`: surrounding whitespace is ignored, an optional single
sign precedes the digits; anything else raises `ValueError`, modelled as
`none`. -/
def pyInt (l : List Char) : Option Int :=
  match pyStrip l with
  | '+' :: rest => (pyDigits rest).map (fun n => (n : Int))
  | '-' :: rest => (pyDigits rest).map (fun n => -(n : Int))
  | rest => (pyDigits rest).map (fun n => (n : Int))

/-- Constant `DAY_MINUTES` from src/main.py. -/
def DAY_MINUTES : Int := 1440

/-- Table `REST_BREAKS` from src/main.py: (start, end, label) in minutes. -/
def REST_BREAKS : List (Int × Int × String) :=
  [(690, 720, "11:30-12:00"), (1020, 1050, "17:00-17:30"), (1380, 1410, "23:00-23:30")]

/-- Set `REST_LABELS` from src/main.py. -/
def REST_LABELS : List String := ["一线员工休息"]

/-- Function `parse_time_to_minutes` from src/main.py. -/
def parse_time_to_minutes (token : String) : Option Int :=
  if pyStrip token.data = [] then none
  else
    match splitFirst ':' (pyStrip token.data) with
    | none => none
    | some (hourTok, minuteTok) =>
      match pyInt hourTok, pyInt minuteTok with
      | some hour, some minute =>
        if hour = 24 ∧ minute = 0 then some DAY_MINUTES
        else if 0 ≤ hour ∧ hour < 24 ∧ 0 ≤ minute ∧ minute < 60 then
          some (hour * 60 + minute)
        else none
      | _, _ => none

/-- Continuation of `pySplitWs`: `word` holds the reversed characters of the
word currently being read. -/
def pySplitWsGo : List Char → List Char → List (List Char)
  | word, [] => if word = [] then [] else [word.reverse]
  | word, c :: rest =>
    if pySpace c then
      if word = [] then pySplitWsGo [] rest
      else word.reverse :: pySplitWsGo [] rest
    else pySplitWsGo (c :: word) rest

/-- Python `str.split()` with no argument: split on whitespace runs,
discarding empty pieces. -/
def pySplitWs (l : List Char) : List (List Char) := pySplitWsGo [] l

/-- The per-part loop of `parse_shift_cell` (src/main.py lines 84-94): each
whitespace-separated part must be `start-end`; a missing `-` or an
unparseable time token aborts with the corresponding error message; an end
before the start is pushed into the next day by adding `DAY_MINUTES`. -/
def parse_parts (text : String) : List (List Char) → Except String (List (Int × Int))
  | [] => .ok []
  | p :: rest =>
    match splitFirst '-' p with
    | none => .error ("无法识别排班格式: " ++ text)
    | some (startTok, endTok) =>
      match parse_time_to_minutes (String.mk startTok),
            parse_time_to_minutes (String.mk endTok) with
      | some s, some e =>
        (parse_parts text rest).map
          (fun ivs => (s, if e < s then e + DAY_MINUTES else e) :: ivs)
      | _, _ => .error ("无效的时间范围: " ++ String.mk p)

/-- Function `parse_shift_cell` from src/main.py: returns (intervals, error, text). -/
def parse_shift_cell (value : Option String) : List (Int × Int) × Option String × String :=
  match value with
  | none => ([], none, "")
  | some v =>
    if pyStripStr v = "" then ([], none, "")
    else if pyStripStr v ∈ REST_LABELS then ([], none, pyStripStr v)
    else
      match parse_parts (pyStripStr v) (pySplitWs (pyStripStr v).data) with
      | .error e => ([], some e, pyStripStr v)
      | .ok ivs => (ivs, none, pyStripStr v)

/-- Function `clip_segment` from src/main.py. -/
def clip_segment (s e clipStart : Int) (clipEnd : Option Int) : Option (Int × Int) :=
  let upper := match clipEnd with | none => e | some ce => min e ce
  let lower := max s clipStart
  if upper ≤ lower then none else some (lower, upper)

/-- Function `generate_segments` from src/main.py; the `raise ValueError` for an
unknown rule is the `Except.error`.  It fires while handling the first
interval, so an empty interval list never reaches it. -/
def generate_segments : List (Int × Int) → String → Except String (List (Int × Int))
  | [], _ => .ok []
  | (s, e) :: rest, rule =>
    if rule = "full" then
      (generate_segments rest rule).map (fun segs => (s, e) :: segs)
    else if rule = "until_midnight" then
      match clip_segment s e 0 (some DAY_MINUTES) with
      | some seg => (generate_segments rest rule).map (fun segs => seg :: segs)
      | none => generate_segments rest rule
    else if rule = "after_midnight" then
      match clip_segment s e DAY_MINUTES none with
      | some seg => (generate_segments rest rule).map (fun segs => seg :: segs)
      | none => generate_segments rest rule
    else .error ("未知的统计规则: " ++ rule)

/-- Function `format_rest_label` from src/main.py. -/
def format_rest_label (dayOffset : Int) (label : String) : String :=
  if dayOffset = 0 then label
  else if dayOffset = 1 then "次日" ++ label
  else "第" ++ toString dayOffset ++ "天" ++ label

/-- One step of the inner loop of `rest_deductions_for_segment`: add the
positive overlap of the segment with one break projected onto day `d`. -/
def restStep (s e d : Int) (acc : Int × List String) (br : Int × Int × String) :
    Int × List String :=
  let rs := d * DAY_MINUTES + br.1
  let rEnd := d * DAY_MINUTES + br.2.1
  let overlap := min e rEnd - max s rs
  if 0 < overlap then (acc.1 + overlap, acc.2 ++ [format_rest_label d br.2.2]) else acc

/-- Python `range(a, a + n)` over the integers. -/
def intRangeAux : Int → Nat → List Int
  | _, 0 => []
  | a, n + 1 => a :: intRangeAux (a + 1) n

/-- Python `range(a, b + 1)` over the integers. -/
def dayRange (a b : Int) : List Int := intRangeAux a (b + 1 - a).toNat

/-- Function `rest_deductions_for_segment` from src/main.py.  Python `//` is floor
division, i.e. `Int.fdiv`. -/
def rest_deductions_for_segment (s e : Int) : Int × List String :=
  if e ≤ s then (0, [])
  else
    (dayRange (Int.fdiv s DAY_MINUTES) (Int.fdiv (e - 1) DAY_MINUTES)).foldl
      (fun acc d => REST_BREAKS.foldl (restStep s e d) acc) (0, [])

/-- Function `compute_overtime_detail` from src/main.py. -/
def compute_overtime_detail (segments : List (Int × Int)) : Int × List String :=
  segments.foldl
    (fun acc seg =>
      if seg.2 ≤ seg.1 then acc
      else
        let p := rest_deductions_for_segment seg.1 seg.2
        (acc.1 + max 0 (seg.2 - seg.1 - p.1), acc.2 ++ p.2))
    (0, [])

/-- Python `round` restricted to one decimal-place count: round half to even. -/
def roundHalfEven (q : ℚ) : ℤ :=
  let f := ⌊q⌋
  let r := q - (f : ℚ)
  if r < 1 / 2 then f
  else if 1 / 2 < r then f + 1
  else if f % 2 = 0 then f else f + 1

/-- Python `round(x, 2)` on an exact rational value. -/
def round2 (q : ℚ) : ℚ := (roundHalfEven (q * 100) : ℚ) / 100

/-- Structure `OvertimeResult` from src/main.py. -/
structure OvertimeResult where
  hours : ℚ
  rest_labels : List String
  shift_text : String
  error : Option String
  deriving DecidableEq

/-- Function `calculate_overtime` from src/main.py; the uncaught `ValueError` coming
out of `generate_segments` is propagated as `Except.error`. -/
def calculate_overtime (value : Option String) (rule : String) :
    Except String OvertimeResult :=
  match parse_shift_cell value with
  | (_, some e, text) => .ok ⟨0, [], text, some e⟩
  | (intervals, none, text) =>
    if intervals = [] then .ok ⟨0, [], text, none⟩
    else
      match generate_segments intervals rule with
      | .error msg => .error msg
      | .ok segments =>
        let p := compute_overtime_detail segments
        .ok ⟨round2 ((p.1 : ℚ) / 60), p.2, text, none⟩

/-- Spec-side reading of the time-token grammar (spec section 4.1, claim C2):
classify the trimmed token by splitting at the first ':' and parsing both
halves as Python integers; an in-range pair gives `hour * 60 + minute`, the
end-of-day pair (24, 0) gives 1440, everything else gives no value. -/
def timeTokenSpec (token : String) : Option Int :=
  match splitFirst ':' (pyStrip token.data) with
  | none => none
  | some (hourTok, minuteTok) =>
    match pyInt hourTok, pyInt minuteTok with
    | some hour, some minute =>
      if 0 ≤ hour ∧ hour < 24 ∧ 0 ≤ minute ∧ minute < 60 then some (hour * 60 + minute)
      else if hour = 24 ∧ minute = 0 then some 1440
      else none
    | _, _ => none

/-- Spec-side reading of one break/day overlap (spec section 4.4, claim C4):
the overlap of the segment with the break projected onto day `d`, together
with its day-qualified label, kept only when positive. -/
def overlapOf (s e d : Int) (br : Int × Int × String) : Option (Int × String) :=
  let overlap := min e (d * DAY_MINUTES + br.2.1) - max s (d * DAY_MINUTES + br.1)
  if 0 < overlap then some (overlap, format_rest_label d br.2.2) else none

/-- Spec-side reading of the deduction computation (claim C4): all positive
break overlaps of a segment, in encounter order (day offsets outward,
configured breaks inward). -/
def segmentOverlaps (s e : Int) : List (Int × String) :=
  (dayRange (Int.fdiv s DAY_MINUTES) (Int.fdiv (e - 1) DAY_MINUTES)).flatMap
    (fun d => REST_BREAKS.filterMap (overlapOf s e d))

/-- The intervals of `L` are ordered, pairwise disjoint, and all lie at or
after minute `c`. -/
def ChainFrom : Int → List (Int × Int) → Prop
  | _, [] => True
  | c, (a, b) :: rest => c ≤ a ∧ a ≤ b ∧ ChainFrom b rest

/-- The configured break windows projected onto each day of `days`. -/
def projBreaks (days : List Int) : List (Int × Int) :=
  days.flatMap
    (fun d => REST_BREAKS.map (fun br => (d * DAY_MINUTES + br.1, d * DAY_MINUTES + br.2.1)))

/-- When `q * 100` is an integer, round-half-to-even at two decimals is exact. -/
lemma round2_eq_self (q : ℚ) (n : ℤ) (hn : q * 100 = (n : ℚ)) : round2 q = q := by
  unfold round2 roundHalfEven
  rw [hn, Int.floor_intCast]
  rw [if_pos (by norm_num)]
  rw [eq_comm, eq_div_iff (by norm_num : (100 : ℚ) ≠ 0)]
  linarith [hn]

/-- Minute totals divisible by 3 convert to hours exactly. -/
lemma round2_div60_exact (m : Int) (h : 3 ∣ m) : round2 ((m : ℚ) / 60) = (m : ℚ) / 60 := by
  obtain ⟨k, rfl⟩ := h
  refine round2_eq_self _ (5 * k) ?_
  push_cast
  ring

lemma round2_450 : round2 (((450 : Int) : ℚ) / 60) = 15 / 2 := by
  rw [round2_div60_exact 450 ⟨150, rfl⟩]
  norm_num

lemma round2_480 : round2 (((480 : Int) : ℚ) / 60) = 8 := by
  rw [round2_div60_exact 480 ⟨160, rfl⟩]
  norm_num

lemma round2_90 : round2 (((90 : Int) : ℚ) / 60) = 3 / 2 := by
  rw [round2_div60_exact 90 ⟨30, rfl⟩]
  norm_num

lemma round2_420 : round2 (((420 : Int) : ℚ) / 60) = 7 := by
  rw [round2_div60_exact 420 ⟨140, rfl⟩]
  norm_num

lemma round2_zero : round2 (((0 : Int) : ℚ) / 60) = 0 := by
  rw [round2_div60_exact 0 ⟨0, rfl⟩]
  norm_num

/-- C2: `parse_time_to_minutes` realises exactly the spec's token
classification: a trimmed token splitting at the first ':' into two Python
integers gives `hour * 60 + minute` when `0 ≤ hour < 24` and
`0 ≤ minute < 60`, gives 1440 when `(hour, minute) = (24, 0)`, and gives no
value in every other case (empty token, missing ':', unparseable half,
out-of-range values); being a total function, it never raises. -/
theorem C2_time_token_classification :
    ∀ token : String, parse_time_to_minutes token = timeTokenSpec token := by
  intro token
  unfold parse_time_to_minutes timeTokenSpec
  generalize pyStrip token.data = t
  cases t with
  | nil => simp [splitFirst]
  | cons c cs =>
    rw [if_neg (by simp)]
    rcases hsp : splitFirst ':' (c :: cs) with _ | ⟨hourTok, minuteTok⟩
    · rfl
    · show (match pyInt hourTok, pyInt minuteTok with
            | some hour, some minute =>
              if hour = 24 ∧ minute = 0 then some DAY_MINUTES
              else if 0 ≤ hour ∧ hour < 24 ∧ 0 ≤ minute ∧ minute < 60 then
                some (hour * 60 + minute)
              else none
            | _, _ => none) =
          (match pyInt hourTok, pyInt minuteTok with
            | some hour, some minute =>
              if 0 ≤ hour ∧ hour < 24 ∧ 0 ≤ minute ∧ minute < 60 then
                some (hour * 60 + minute)
              else if hour = 24 ∧ minute = 0 then some 1440
              else none
            | _, _ => none)
      rcases hh : pyInt hourTok with _ | hour <;>
        rcases hm : pyInt minuteTok with _ | minute <;> try rfl
      show (if hour = 24 ∧ minute = 0 then some DAY_MINUTES
            else if 0 ≤ hour ∧ hour < 24 ∧ 0 ≤ minute ∧ minute < 60 then
              some (hour * 60 + minute)
            else none) =
          (if 0 ≤ hour ∧ hour < 24 ∧ 0 ≤ minute ∧ minute < 60 then
            some (hour * 60 + minute)
          else if hour = 24 ∧ minute = 0 then some 1440
          else none)
      unfold DAY_MINUTES
      split_ifs <;> first | rfl | omega

/-- C8: the minutes-to-hours conversion `round(minutes / 60, 2)` maps 90
minutes to exactly 1.5 and 37 minutes to exactly 0.62.  The Python float
quotient is modelled by the exact rational; neither input sits at a
half-even tie, and 90/60 is exactly representable, so the model agrees with
the float computation. -/
theorem C8_rounding_values :
    round2 ((90 : ℚ) / 60) = 15 / 10 ∧ round2 ((37 : ℚ) / 60) = 62 / 100 := by
  constructor
  · rw [round2_eq_self ((90 : ℚ) / 60) 150 (by norm_num)]
    norm_num
  · have hf : ⌊(37 : ℚ) / 60 * 100⌋ = 61 := by
      rw [Int.floor_eq_iff]
      norm_num
    unfold round2 roundHalfEven
    rw [hf]
    norm_num

/-- C1 fails on the code: the cell "09:00-18:00" under rule `full` yields
8.0 hours (540 minutes minus two half-hour breaks), and both configured
breaks 11:30-12:00 and 17:00-17:30 are deducted, not just 11:30-12:00 as
the claim states. -/
theorem C1_counterexample :
    calculate_overtime (some "09:00-18:00") "full" =
      .ok ⟨8, ["11:30-12:00", "17:00-17:30"], "09:00-18:00", none⟩ ∧
    (8 : ℚ) ≠ 15 / 2 ∧
    (["11:30-12:00", "17:00-17:30"] : List String) ≠ ["11:30-12:00"] := by
  refine ⟨?_, by norm_num, by decide⟩
  rw [← round2_480]
  rfl

/-- C1 amended: the behaviour the claim describes belongs to the cell
"09:00-17:00" (the shift that "ends exactly at 17:00"): under rule `full`
it yields 7.5 hours and the deducted label list is exactly
["11:30-12:00"], the 17:00-17:30 break contributing zero. -/
theorem C1_amended_overtime :
    calculate_overtime (some "09:00-17:00") "full" =
      .ok ⟨15 / 2, ["11:30-12:00"], "09:00-17:00", none⟩ := by
  rw [← round2_450]
  rfl

/-- C3: the wrapped cell "22:00-07:00" parses to the interval (1320, 1860);
under `until_midnight` it is clipped to 1320-1440 and loses the 23:00-23:30
break, giving 1.5 hours, and under `after_midnight` it is clipped to
1440-1860 with no break overlap, giving 7.0 hours. -/
theorem C3_wrap_shift_rules :
    parse_shift_cell (some "22:00-07:00") = ([(1320, 1860)], none, "22:00-07:00") ∧
    calculate_overtime (some "22:00-07:00") "until_midnight" =
      .ok ⟨15 / 10, ["23:00-23:30"], "22:00-07:00", none⟩ ∧
    calculate_overtime (some "22:00-07:00") "after_midnight" =
      .ok ⟨7, [], "22:00-07:00", none⟩ := by
  refine ⟨by decide, ?_, ?_⟩
  · have h : (15 : ℚ) / 10 = 3 / 2 := by norm_num
    rw [h, ← round2_90]
    rfl
  · rw [← round2_420]
    rfl

/-- C10: the zero-length part "09:00-09:00" parses successfully (the wrap
correction needs a strictly smaller end, so none is applied) into the
interval (540, 540), and under each of the three rules the pipeline returns
0 hours, no deducted labels and no error. -/
theorem C10_zero_length_shift :
    parse_shift_cell (some "09:00-09:00") = ([(540, 540)], none, "09:00-09:00") ∧
    calculate_overtime (some "09:00-09:00") "full" =
      .ok ⟨0, [], "09:00-09:00", none⟩ ∧
    calculate_overtime (some "09:00-09:00") "until_midnight" =
      .ok ⟨0, [], "09:00-09:00", none⟩ ∧
    calculate_overtime (some "09:00-09:00") "after_midnight" =
      .ok ⟨0, [], "09:00-09:00", none⟩ := by
  rw [← round2_zero]
  exact ⟨by decide, rfl, rfl, rfl⟩

/-- C5 fails on the code: the successfully parsed cell "09:00-09:00"
produces the interval (540, 540), whose end is not strictly greater than
its start. -/
theorem C5_counterexample :
    parse_shift_cell (some "09:00-09:00") = ([(540, 540)], none, "09:00-09:00") ∧
    ¬ ((540 : Int) < 540) := ⟨by decide, by decide⟩

/-- Every value returned by `parse_time_to_minutes` lies in [0, 1440]. -/
lemma parse_time_bounds (tok : String) (v : Int)
    (h : parse_time_to_minutes tok = some v) : 0 ≤ v ∧ v ≤ 1440 := by
  unfold parse_time_to_minutes at h
  by_cases hnil : pyStrip tok.data = []
  · rw [if_pos hnil] at h
    exact absurd h (by simp)
  · rw [if_neg hnil] at h
    rcases hsp : splitFirst ':' (pyStrip tok.data) with _ | ⟨hourTok, minuteTok⟩ <;>
      rw [hsp] at h
    · exact absurd h (by simp)
    · replace h : (match pyInt hourTok, pyInt minuteTok with
          | some hour, some minute =>
            if hour = 24 ∧ minute = 0 then some DAY_MINUTES
            else if 0 ≤ hour ∧ hour < 24 ∧ 0 ≤ minute ∧ minute < 60 then
              some (hour * 60 + minute)
            else none
          | _, _ => none) = some v := h
      rcases hh : pyInt hourTok with _ | hour <;>
        rcases hm : pyInt minuteTok with _ | minute <;> rw [hh, hm] at h
      · simp at h
      · simp at h
      · simp at h
      · unfold DAY_MINUTES at h
        replace h : (if hour = 24 ∧ minute = 0 then some (1440 : Int)
            else if 0 ≤ hour ∧ hour < 24 ∧ 0 ≤ minute ∧ minute < 60 then
              some (hour * 60 + minute)
            else none) = some v := h
        split_ifs at h with h1 h2
        · obtain rfl : (1440 : Int) = v := by injection h
          omega
        · obtain rfl : hour * 60 + minute = v := by injection h
          omega

/-- Every interval produced by the part loop satisfies `start ≤ end`. -/
lemma parse_parts_le (text : String) :
    ∀ (parts : List (List Char)) (ivs : List (Int × Int)),
      parse_parts text parts = .ok ivs → ∀ p ∈ ivs, p.1 ≤ p.2 := by
  intro parts
  induction parts with
  | nil =>
    intro ivs h p hp
    obtain rfl : ([] : List (Int × Int)) = ivs := by injection h
    simp at hp
  | cons pt rest ih =>
    intro ivs h p hp
    unfold parse_parts at h
    rcases hsp : splitFirst '-' pt with _ | ⟨startTok, endTok⟩ <;> rw [hsp] at h
    · exact absurd h (by simp)
    · replace h : (match parse_time_to_minutes (String.mk startTok),
            parse_time_to_minutes (String.mk endTok) with
          | some s, some e =>
            (parse_parts text rest).map
              (fun ivs => (s, if e < s then e + DAY_MINUTES else e) :: ivs)
          | _, _ => .error ("无效的时间范围: " ++ String.mk pt)) = .ok ivs := h
      rcases hs : parse_time_to_minutes (String.mk startTok) with _ | s <;>
        rcases he : parse_time_to_minutes (String.mk endTok) with _ | e <;>
          rw [hs, he] at h
      · simp at h
      · simp at h
      · simp at h
      · rcases hrec : parse_parts text rest with msg | ivs0 <;> rw [hrec] at h
        · simp [Except.map] at h
        · simp only [Except.map, Except.ok.injEq] at h
          subst h
          rw [List.mem_cons] at hp
          rcases hp with rfl | hp
          · obtain ⟨hs0, hs1⟩ := parse_time_bounds _ _ hs
            obtain ⟨he0, he1⟩ := parse_time_bounds _ _ he
            unfold DAY_MINUTES
            dsimp only
            split_ifs <;> omega
          · exact ih ivs0 hrec p hp

/-- C5 amended: after the wrap correction every interval produced by a
successful `parse_shift_cell` satisfies `start ≤ end`; strict inequality
fails exactly for zero-length parts such as "09:00-09:00". -/
theorem C5_amended_interval_order :
    ∀ (value : Option String) (ivs : List (Int × Int)) (text : String),
      parse_shift_cell value = (ivs, none, text) → ∀ p ∈ ivs, p.1 ≤ p.2 := by
  intro value ivs text h p hp
  cases value with
  | none =>
    unfold parse_shift_cell at h
    obtain rfl : ([] : List (Int × Int)) = ivs := congrArg Prod.fst h
    simp at hp
  | some v =>
    unfold parse_shift_cell at h
    replace h : (if pyStripStr v = "" then ([], none, "")
        else if pyStripStr v ∈ REST_LABELS then ([], none, pyStripStr v)
        else
          match parse_parts (pyStripStr v) (pySplitWs (pyStripStr v).data) with
          | Except.error e => ([], some e, pyStripStr v)
          | Except.ok ivs => (ivs, none, pyStripStr v)) = (ivs, none, text) := h
    split_ifs at h with h1 h2
    · obtain rfl : ([] : List (Int × Int)) = ivs := congrArg Prod.fst h
      simp at hp
    · obtain rfl : ([] : List (Int × Int)) = ivs := congrArg Prod.fst h
      simp at hp
    · rcases hpp : parse_parts (pyStripStr v) (pySplitWs (pyStripStr v).data)
          with msg | ivs0 <;> rw [hpp] at h
      · exact absurd (congrArg (fun t => t.2.1) h) (by simp)
      · obtain rfl : ivs0 = ivs := congrArg Prod.fst h
        exact parse_parts_le _ _ _ hpp p hp

/-- Witness for C5 amended at the cell "09:00-18:00". -/
theorem C5_amended_witness :
    parse_shift_cell (some "09:00-18:00") = ([(540, 1080)], none, "09:00-18:00") ∧
    (540 : Int) ≤ 1080 :=
  ⟨by decide,
   C5_amended_interval_order (some "09:00-18:00") [(540, 1080)] "09:00-18:00"
     (by decide) (540, 1080) (by simp)⟩

/-- C7: when `parse_shift_cell` reports an error, `calculate_overtime`
short-circuits for every rule string (even an invalid one, since no
rule-name validation happens), returning zero hours, no deducted labels,
the original text, and the error message, and raising nothing. -/
theorem C7_parse_error_short_circuit :
    ∀ (value : Option String) (rule : String) (ivs : List (Int × Int))
      (msg text : String),
      parse_shift_cell value = (ivs, some msg, text) →
      calculate_overtime value rule = .ok ⟨0, [], text, some msg⟩ := by
  intro value rule ivs msg text h
  unfold calculate_overtime
  rw [h]

/-- Witness for C7 at the malformed cell "18:00 20:00" and an invalid rule. -/
theorem C7_witness :
    calculate_overtime (some "18:00 20:00") "not_a_rule" =
      .ok ⟨0, [], "18:00 20:00", some "无法识别排班格式: 18:00 20:00"⟩ :=
  C7_parse_error_short_circuit (some "18:00 20:00") "not_a_rule" []
    "无法识别排班格式: 18:00 20:00" "18:00 20:00" (by decide)

/-- C6 fails on the code as stated: an unknown rule name passed to the
segment engine together with an empty interval list does not raise (the
validation sits inside the per-interval loop), so "passing an unknown rule
raises" is not true of every engine invocation. -/
theorem C6_counterexample :
    generate_segments [] "invalid" = .ok [] ∧
    "invalid" ≠ "full" ∧ "invalid" ≠ "until_midnight" ∧ "invalid" ≠ "after_midnight" :=
  ⟨rfl, by decide, by decide, by decide⟩

/-- With one of the three configured rules, the engine never raises. -/
lemma generate_segments_valid_total :
    ∀ (ivs : List (Int × Int)) (rule : String),
      rule = "full" ∨ rule = "until_midnight" ∨ rule = "after_midnight" →
      ∃ segs, generate_segments ivs rule = .ok segs := by
  intro ivs
  induction ivs with
  | nil => exact fun rule _ => ⟨[], rfl⟩
  | cons iv rest ih =>
    intro rule hr
    obtain ⟨segs, hsegs⟩ := ih rule hr
    obtain ⟨s, e⟩ := iv
    rcases hr with rfl | rfl | rfl
    · exact ⟨(s, e) :: segs, by simp [generate_segments, hsegs, Except.map]⟩
    · rcases hclip : clip_segment s e 0 (some DAY_MINUTES) with _ | seg
      · exact ⟨segs, by simp [generate_segments, hclip, hsegs]⟩
      · exact ⟨seg :: segs, by simp [generate_segments, hclip, hsegs, Except.map]⟩
    · rcases hclip : clip_segment s e DAY_MINUTES none with _ | seg
      · exact ⟨segs, by simp [generate_segments, hclip, hsegs]⟩
      · exact ⟨seg :: segs, by simp [generate_segments, hclip, hsegs, Except.map]⟩

/-- C6 amended: an unknown rule name raises the configuration error as soon
as the segment engine processes an interval (so whenever at least one
interval is present), while with an empty interval list the engine returns
no segments without validating the rule; and expected invalid cell input
never raises: under any of the three configured rules the whole pipeline
returns a normal result for every cell value, parse errors being reported
inside that result. -/
theorem C6_amended_rule_validation :
    (∀ (rule : String) (iv : Int × Int) (rest : List (Int × Int)),
        rule ≠ "full" → rule ≠ "until_midnight" → rule ≠ "after_midnight" →
        generate_segments (iv :: rest) rule = .error ("未知的统计规则: " ++ rule)) ∧
    (∀ (value : Option String) (rule : String),
        rule = "full" ∨ rule = "until_midnight" ∨ rule = "after_midnight" →
        ∃ res, calculate_overtime value rule = .ok res) := by
  constructor
  · intro rule iv rest h1 h2 h3
    obtain ⟨s, e⟩ := iv
    show generate_segments ((s, e) :: rest) rule = _
    unfold generate_segments
    rw [if_neg h1, if_neg h2, if_neg h3]
  · intro value rule hr
    rcases hps : parse_shift_cell value with ⟨ivs, err, text⟩
    cases err with
    | some msg =>
      exact ⟨⟨0, [], text, some msg⟩, by unfold calculate_overtime; rw [hps]⟩
    | none =>
      by_cases hemp : ivs = []
      · subst hemp
        exact ⟨⟨0, [], text, none⟩, by unfold calculate_overtime; rw [hps]; rfl⟩
      · obtain ⟨segs, hsegs⟩ := generate_segments_valid_total ivs rule hr
        refine ⟨⟨round2 (((compute_overtime_detail segs).1 : ℚ) / 60),
          (compute_overtime_detail segs).2, text, none⟩, ?_⟩
        unfold calculate_overtime
        rw [hps]
        show (if ivs = [] then
                (Except.ok ⟨0, [], text, none⟩ : Except String OvertimeResult)
              else match generate_segments ivs rule with
                | Except.error msg => Except.error msg
                | Except.ok segments =>
                  Except.ok ⟨round2 (((compute_overtime_detail segments).1 : ℚ) / 60),
                    (compute_overtime_detail segments).2, text, none⟩) = _
        rw [if_neg hemp, hsegs]

/-- Witness for C6 amended: a concrete unknown rule with one interval, and
a concrete cell under the rule `full`. -/
theorem C6_amended_witness :
    generate_segments [(0, 1)] "weekly" = .error ("未知的统计规则: " ++ "weekly") ∧
    ∃ res, calculate_overtime (some "09:00-17:00") "full" = .ok res :=
  ⟨C6_amended_rule_validation.1 "weekly" (0, 1) [] (by decide) (by decide) (by decide),
   C6_amended_rule_validation.2 (some "09:00-17:00") "full" (Or.inl rfl)⟩

/-- The inner break fold accumulates exactly the positive overlaps of
`overlapOf` and their labels, in order. -/
lemma foldl_restStep_eq (s e d : Int) :
    ∀ (brs : List (Int × Int × String)) (acc : Int × List String),
      brs.foldl (restStep s e d) acc =
        (acc.1 + ((brs.filterMap (overlapOf s e d)).map Prod.fst).sum,
         acc.2 ++ (brs.filterMap (overlapOf s e d)).map Prod.snd) := by
  intro brs
  induction brs with
  | nil => intro acc; simp
  | cons br rest ih =>
    intro acc
    rw [List.foldl_cons, ih]
    by_cases hov : 0 < min e (d * DAY_MINUTES + br.2.1) - max s (d * DAY_MINUTES + br.1)
    · have hsome : overlapOf s e d br =
          some (min e (d * DAY_MINUTES + br.2.1) - max s (d * DAY_MINUTES + br.1),
                format_rest_label d br.2.2) := by
        simp only [overlapOf]
        rw [if_pos hov]
      have hstep : restStep s e d acc br =
          (acc.1 + (min e (d * DAY_MINUTES + br.2.1) - max s (d * DAY_MINUTES + br.1)),
           acc.2 ++ [format_rest_label d br.2.2]) := by
        simp only [restStep]
        rw [if_pos hov]
      rw [hstep, List.filterMap_cons_some hsome, List.map_cons, List.sum_cons,
        List.map_cons]
      refine Prod.ext ?_ ?_
      · dsimp only
        omega
      · dsimp only
        simp
    · have hnone : overlapOf s e d br = none := by
        simp only [overlapOf]
        rw [if_neg hov]
      have hstep : restStep s e d acc br = acc := by
        simp only [restStep]
        rw [if_neg hov]
      rw [hstep, List.filterMap_cons_none hnone]

/-- The day fold accumulates exactly the flattened positive overlaps. -/
lemma foldl_days_eq (s e : Int) :
    ∀ (days : List Int) (acc : Int × List String),
      days.foldl (fun acc d => REST_BREAKS.foldl (restStep s e d) acc) acc =
        (acc.1 +
           ((days.flatMap (fun d => REST_BREAKS.filterMap (overlapOf s e d))).map
             Prod.fst).sum,
         acc.2 ++
           (days.flatMap (fun d => REST_BREAKS.filterMap (overlapOf s e d))).map
             Prod.snd) := by
  intro days
  induction days with
  | nil => intro acc; simp
  | cons d rest ih =>
    intro acc
    rw [List.foldl_cons, foldl_restStep_eq, ih]
    rw [List.flatMap_cons, List.map_append, List.sum_append, List.map_append]
    refine Prod.ext ?_ ?_
    · dsimp only
      omega
    · dsimp only
      simp

/-- Function `rest_deductions_for_segment` refines the declarative description: zero
for an empty segment, otherwise the sum of the positive overlaps of
`segmentOverlaps` and their labels in encounter order. -/
lemma rest_deductions_eq (s e : Int) :
    rest_deductions_for_segment s e =
      if e ≤ s then (0, [])
      else (((segmentOverlaps s e).map Prod.fst).sum,
            (segmentOverlaps s e).map Prod.snd) := by
  unfold rest_deductions_for_segment segmentOverlaps
  split
  · rfl
  · rw [foldl_days_eq]
    simp

/-- C4: for every segment, the rest deduction is `(0, [])` when
`end ≤ start`, and otherwise equals the sum, over every day offset from
`start div 1440` to `(end - 1) div 1440` and every configured break, of the
positive overlaps `min(end, day * 1440 + break_end) - max(start, day * 1440
+ break_start)`, with one day-qualified label appended per positive overlap
in encounter order (`format_rest_label`: offset 0 bare, offset 1 next-day,
offset ≥ 2 day-N). -/
theorem C4_rest_deduction_spec :
    ∀ s e : Int,
      rest_deductions_for_segment s e =
        if e ≤ s then (0, [])
        else (((segmentOverlaps s e).map Prod.fst).sum,
              (segmentOverlaps s e).map Prod.snd) :=
  fun s e => rest_deductions_eq s e

lemma projBreaks_cons (d : Int) (rest : List Int) :
    projBreaks (d :: rest) =
      (REST_BREAKS.map (fun br => (d * DAY_MINUTES + br.1, d * DAY_MINUTES + br.2.1))) ++
        projBreaks rest := by
  unfold projBreaks
  rw [List.flatMap_cons]

/-- Dropping the non-positive overlaps and summing equals summing the
clamped overlaps. -/
lemma filterMap_overlap_sum (s e d : Int) (brs : List (Int × Int × String)) :
    ((brs.filterMap (overlapOf s e d)).map Prod.fst).sum =
      (brs.map (fun br =>
        max 0 (min e (d * DAY_MINUTES + br.2.1) - max s (d * DAY_MINUTES + br.1)))).sum := by
  induction brs with
  | nil => simp
  | cons br rest ih =>
    by_cases hov : 0 < min e (d * DAY_MINUTES + br.2.1) - max s (d * DAY_MINUTES + br.1)
    · have hsome : overlapOf s e d br =
          some (min e (d * DAY_MINUTES + br.2.1) - max s (d * DAY_MINUTES + br.1),
                format_rest_label d br.2.2) := by
        simp only [overlapOf]
        rw [if_pos hov]
      rw [List.filterMap_cons_some hsome, List.map_cons, List.sum_cons, List.map_cons,
        List.sum_cons, ih]
      omega
    · have hnone : overlapOf s e d br = none := by
        simp only [overlapOf]
        rw [if_neg hov]
      rw [List.filterMap_cons_none hnone, List.map_cons, List.sum_cons, ih]
      omega

/-- The deduction total equals the clamped-overlap total over the projected
break windows. -/
lemma proj_sum_eq (s e : Int) (days : List Int) :
    ((days.flatMap (fun d => REST_BREAKS.filterMap (overlapOf s e d))).map Prod.fst).sum =
      ((projBreaks days).map (fun p => max 0 (min e p.2 - max s p.1))).sum := by
  induction days with
  | nil => simp [projBreaks]
  | cons d rest ih =>
    rw [List.flatMap_cons, List.map_append, List.sum_append, ih, projBreaks_cons,
      List.map_append, List.sum_append, filterMap_overlap_sum, List.map_map]
    rfl

lemma chainFrom_mono : ∀ (L : List (Int × Int)) (c c' : Int),
    c' ≤ c → ChainFrom c L → ChainFrom c' L := by
  intro L c c' hcc h
  cases L with
  | nil => trivial
  | cons p rest =>
    obtain ⟨a, b⟩ := p
    obtain ⟨h1, h2, h3⟩ := h
    exact ⟨le_trans hcc h1, h2, h3⟩

/-- Clamped overlaps of a chain of disjoint windows with the window
`[s, e)` sum to at most its length. -/
lemma chain_clip_sum_le (s e : Int) :
    ∀ (L : List (Int × Int)) (c : Int), ChainFrom c L →
      (L.map (fun p => max 0 (min e p.2 - max s p.1))).sum ≤ max 0 (e - max s c) := by
  intro L
  induction L with
  | nil =>
    intro c _
    simp only [List.map_nil, List.sum_nil]
    omega
  | cons p rest ih =>
    intro c hc
    obtain ⟨a, b⟩ := p
    obtain ⟨h1, h2, h3⟩ := hc
    have hr := ih b h3
    rw [List.map_cons, List.sum_cons]
    dsimp only
    omega

/-- The break windows projected onto consecutive days form a disjoint
chain. -/
lemma projBreaks_chain : ∀ (n : Nat) (a : Int),
    ChainFrom (a * DAY_MINUTES) (projBreaks (intRangeAux a n)) := by
  intro n
  induction n with
  | zero =>
    intro a
    show ChainFrom (a * DAY_MINUTES) (projBreaks [])
    simp only [projBreaks, List.flatMap_nil]
    trivial
  | succ n ih =>
    intro a
    have hrec : ChainFrom (a * DAY_MINUTES + 1410) (projBreaks (intRangeAux (a + 1) n)) := by
      refine chainFrom_mono _ ((a + 1) * DAY_MINUTES) _ ?_ (ih (a + 1))
      unfold DAY_MINUTES
      omega
    show ChainFrom (a * DAY_MINUTES) (projBreaks (a :: intRangeAux (a + 1) n))
    rw [projBreaks_cons]
    simp only [REST_BREAKS, List.map_cons, List.map_nil, List.cons_append, List.nil_append]
    exact ⟨by omega, by omega, by omega, by omega, by omega, by omega, hrec⟩

lemma fdiv_day_mul_le (s : Int) : Int.fdiv s DAY_MINUTES * DAY_MINUTES ≤ s := by
  rw [Int.fdiv_eq_ediv s (by norm_num [DAY_MINUTES])]
  unfold DAY_MINUTES
  omega

/-- A non-empty segment never loses more minutes to rest deduction than its
own length: the projected break windows are pairwise disjoint
sub-windows. -/
lemma rest_deduction_le (s e : Int) (hse : s < e) :
    (rest_deductions_for_segment s e).1 ≤ e - s := by
  rw [rest_deductions_eq, if_neg (not_le.mpr hse)]
  dsimp only
  unfold segmentOverlaps
  rw [proj_sum_eq]
  have hchain : ChainFrom (Int.fdiv s DAY_MINUTES * DAY_MINUTES)
      (projBreaks (dayRange (Int.fdiv s DAY_MINUTES) (Int.fdiv (e - 1) DAY_MINUTES))) :=
    projBreaks_chain ((Int.fdiv (e - 1) DAY_MINUTES + 1 - Int.fdiv s DAY_MINUTES).toNat)
      (Int.fdiv s DAY_MINUTES)
  have hle := chain_clip_sum_le s e _ _ hchain
  have hfd := fdiv_day_mul_le s
  omega

lemma detail_fold_le : ∀ (segs : List (Int × Int)) (acc : Int × List String),
    acc.1 ≤ (segs.foldl (fun acc seg =>
      if seg.2 ≤ seg.1 then acc
      else
        (acc.1 + max 0 (seg.2 - seg.1 - (rest_deductions_for_segment seg.1 seg.2).1),
         acc.2 ++ (rest_deductions_for_segment seg.1 seg.2).2)) acc).1 := by
  intro segs
  induction segs with
  | nil => intro acc; exact le_refl _
  | cons seg rest ih =>
    intro acc
    rw [List.foldl_cons]
    refine le_trans ?_ (ih _)
    by_cases hseg : seg.2 ≤ seg.1
    · rw [if_pos hseg]
    · rw [if_neg hseg]
      dsimp only
      omega

lemma compute_detail_fst_nonneg (segs : List (Int × Int)) :
    0 ≤ (compute_overtime_detail segs).1 :=
  detail_fold_le segs (0, [])

lemma round2_nonneg (q : ℚ) (hq : 0 ≤ q) : 0 ≤ round2 q := by
  have hf : (0 : ℤ) ≤ ⌊q * 100⌋ := Int.floor_nonneg.mpr (by positivity)
  unfold round2 roundHalfEven
  dsimp only
  split_ifs
  · exact div_nonneg (by exact_mod_cast hf) (by norm_num)
  · exact div_nonneg (by exact_mod_cast (show (0 : ℤ) ≤ ⌊q * 100⌋ + 1 by omega))
      (by norm_num)
  · exact div_nonneg (by exact_mod_cast hf) (by norm_num)
  · exact div_nonneg (by exact_mod_cast (show (0 : ℤ) ≤ ⌊q * 100⌋ + 1 by omega))
      (by norm_num)

lemma calculate_hours_nonneg :
    ∀ (value : Option String) (rule : String) (res : OvertimeResult),
      calculate_overtime value rule = .ok res → 0 ≤ res.hours := by
  intro value rule res h
  unfold calculate_overtime at h
  rcases hps : parse_shift_cell value with ⟨ivs, err, text⟩
  rw [hps] at h
  cases err with
  | some msg =>
    replace h : (Except.ok ⟨0, [], text, some msg⟩ : Except String OvertimeResult) =
        .ok res := h
    obtain rfl := Except.ok.inj h
    exact le_refl _
  | none =>
    replace h : (if ivs = [] then
          (Except.ok ⟨0, [], text, none⟩ : Except String OvertimeResult)
        else match generate_segments ivs rule with
          | Except.error msg => Except.error msg
          | Except.ok segments =>
            Except.ok ⟨round2 (((compute_overtime_detail segments).1 : ℚ) / 60),
              (compute_overtime_detail segments).2, text, none⟩) = .ok res := h
    split_ifs at h with hiv
    · obtain rfl := Except.ok.inj h
      exact le_refl _
    · rcases hg : generate_segments ivs rule with msg | segs <;> rw [hg] at h
      · exact absurd h (by simp)
      · obtain rfl := Except.ok.inj h
        refine round2_nonneg _ ?_
        refine div_nonneg ?_ (by norm_num)
        exact_mod_cast compute_detail_fst_nonneg segs

/-- C9: for every non-empty segment the rest deduction never exceeds the
segment length (the projected break windows being pairwise disjoint), so
the `max 0` floor in the aggregation never changes the value, and the hours
of every result produced by `calculate_overtime` are non-negative. -/
theorem C9_deduction_bounded :
    (∀ s e : Int, s < e →
        (rest_deductions_for_segment s e).1 ≤ e - s ∧
        max 0 (e - s - (rest_deductions_for_segment s e).1) =
          e - s - (rest_deductions_for_segment s e).1) ∧
    (∀ (value : Option String) (rule : String) (res : OvertimeResult),
        calculate_overtime value rule = .ok res → 0 ≤ res.hours) := by
  constructor
  · intro s e hse
    have h := rest_deduction_le s e hse
    exact ⟨h, by omega⟩
  · exact calculate_hours_nonneg

/-- Witness for C9 at the segment (540, 1080) and the empty cell. -/
theorem C9_witness :
    ((rest_deductions_for_segment 540 1080).1 ≤ 1080 - 540 ∧
      max 0 (1080 - 540 - (rest_deductions_for_segment 540 1080).1) =
        1080 - 540 - (rest_deductions_for_segment 540 1080).1) ∧
    0 ≤ ({ hours := 0, rest_labels := [], shift_text := "", error := none } :
      OvertimeResult).hours :=
  ⟨C9_deduction_bounded.1 540 1080 (by decide),
   C9_deduction_bounded.2 none "full" ⟨0, [], "", none⟩ rfl⟩
